import Mathlib

/-!
Shallow embedding of the LOF fund scraping and alert pipeline
(`final_lof_fund_scraper.py` together with `fund_limit_fetcher.py`).

Python machine floats are modelled as exact rationals; `float(...)` literal
parsing is modelled by `pyFloat?` over the grammar subset actually exercised
by premium strings (optional sign, decimal digits, optional fraction part).
Network traffic is modelled by explicit fetch outcomes passed as arguments.
-/

/-- Python `str.strip()`: remove leading and trailing whitespace characters. -/
def pyStrip (s : String) : String :=
  ⟨((s.data.dropWhile Char.isWhitespace).reverse.dropWhile Char.isWhitespace).reverse⟩

/-- Python `str.strip('%')`: removes all leading and all trailing `'%'` characters. -/
def stripPercentChars (s : String) : String :=
  ⟨((s.data.dropWhile (· = '%')).reverse.dropWhile (· = '%')).reverse⟩

/-- Python `s.endswith(suf)`. -/
def pyEndsWith (s suf : String) : Bool := suf.data.isSuffixOf s.data

/-- Python `s.startswith(p)`. -/
def pyStartsWith (s p : String) : Bool := p.data.isPrefixOf s.data

/-- Numeric value of a list of decimal digit characters, most significant first. -/
def digitsNat (l : List Char) : ℕ :=
  l.foldl (fun a c => a * 10 + (c.toNat - 48)) 0

/-- The digit value as a rational. -/
def digitsVal (l : List Char) : ℚ := (digitsNat l : ℚ)

/-- Unsigned decimal literal `digits [ '.' digits ]` (at least one digit overall). -/
def parseDec? (l : List Char) : Option ℚ :=
  match l.dropWhile (·.isDigit) with
  | [] =>
      if (l.takeWhile (·.isDigit)).isEmpty then none
      else some (digitsVal (l.takeWhile (·.isDigit)))
  | '.' :: frac =>
      if frac.all (·.isDigit) && !((l.takeWhile (·.isDigit)).isEmpty && frac.isEmpty) then
        some (digitsVal (l.takeWhile (·.isDigit)) + digitsVal frac / (10 : ℚ) ^ frac.length)
      else none
  | _ => none

/-- Python `float(s)` on the modelled grammar: optional sign, then a decimal
literal; `none` models a raised `ValueError`. -/
def pyFloat? (s : String) : Option ℚ :=
  match s.data with
  | '+' :: l => parseDec? l
  | '-' :: l => (parseDec? l).map Neg.neg
  | _ => parseDec? s.data

/-- `parse_premium_rate` (final_lof_fund_scraper.py lines 295-304). A `none`
argument models a Python non-string falsy value such as `None`; a failed
numeric parse (`ValueError`) yields `0.0`. -/
def parse_premium_rate (rate_str : Option String) : ℚ :=
  match rate_str with
  | none => 0
  | some s =>
      if pyEndsWith s "%" then (pyFloat? (stripPercentChars s)).getD 0
      else if s ≠ "" then (pyFloat? s).getD 0
      else 0

/-- A row of the basic-quote table (lines 65-72). -/
structure FundBasic where
  code : String
  price : String
  change : String
  date : String
  time : String
  name : String
  deriving DecidableEq, Repr

/-- A row of the valuation table (lines 85-105); blank strings stand for the
absent optional columns. -/
structure FundValuation where
  code : String
  official : String
  officialDate : String
  premium : String
  refEst : String
  refPremium : String
  rtEst : String
  rtPremium : String
  deriving DecidableEq, Repr

/-- The per-fund record built by the pipeline (lines 285-291). -/
structure FundInfo where
  name : String
  code : String
  premium_rate : String
  valuation_type : String
  limit_info : String
  deriving DecidableEq, Repr

/-- One `<tr>` of a scraped table: the stripped text of its `<td>` cells. -/
structure Row where
  cells : List String
  deriving DecidableEq, Repr

/-- The aggregator page: its two tables, when found by id. -/
structure Page where
  referencetable : Option (List Row)
  estimationtable : Option (List Row)
  deriving DecidableEq, Repr

/-- Fund-code format check (lines 64 and 84): starts with `SH` or `SZ` and
has length at least 6. -/
def validCode (code : String) : Bool :=
  (pyStartsWith code "SH" || pyStartsWith code "SZ") && decide (6 ≤ code.length)

/-- `cols[i].get_text(strip=True)`; the default is never reached because every
access is guarded by a length test, as in the source. -/
def cell (r : Row) (i : Nat) : String := r.cells.getD i ""

/-- One data row of `referencetable` (lines 59-72): kept only with at least
6 cells and a valid code. -/
def basicOfRow (r : Row) : Option FundBasic :=
  if 6 ≤ r.cells.length then
    if validCode (cell r 0) then
      some ⟨cell r 0, cell r 1, cell r 2, cell r 3, cell r 4, cell r 5⟩
    else none
  else none

/-- One data row of `estimationtable` (lines 80-105): kept only with at least
4 cells and a valid code; columns 4-5 and 6-7 are read only when the row has
at least 6 and at least 8 cells respectively. -/
def valuationOfRow (r : Row) : Option FundValuation :=
  if 4 ≤ r.cells.length then
    if validCode (cell r 0) then
      some { code := cell r 0, official := cell r 1, officialDate := cell r 2,
             premium := cell r 3,
             refEst := if 6 ≤ r.cells.length then cell r 4 else "",
             refPremium := if 6 ≤ r.cells.length then cell r 5 else "",
             rtEst := if 8 ≤ r.cells.length then cell r 6 else "",
             rtPremium := if 8 ≤ r.cells.length then cell r 7 else "" }
    else none
  else none

/-- `scrape_lof_fund_data` (lines 31-111): each table's rows after the header
are parsed; a missing table contributes nothing; any exception during the
fetch or parse (`.error`) yields `([], [])`. -/
def scrape_lof_fund_data (res : Except String Page) :
    List FundBasic × List FundValuation :=
  match res with
  | .error _ => ([], [])
  | .ok page =>
      ((page.referencetable.map fun rows => (rows.drop 1).filterMap basicOfRow).getD [],
       (page.estimationtable.map fun rows => (rows.drop 1).filterMap valuationOfRow).getD [])

/-- Python truthiness `d.get(k) and d[k].strip()` on a string field. -/
def nonBlank (s : String) : Bool := (s != "") && (pyStrip s != "")

/-- `get_best_valuation_premium` (lines 114-137); `none` models the empty dict
default of `fund_valuation_dict.get(code, {})`. -/
def get_best_valuation_premium (v : Option FundValuation) : String × String :=
  match v with
  | none => ("", "")
  | some fv =>
      if nonBlank fv.refPremium then (fv.refPremium, "参考")
      else if nonBlank fv.rtPremium then (fv.rtPremium, "实时")
      else if nonBlank fv.premium then (fv.premium, "官方")
      else ("", "")

/-- Outcome of one HTTP request: a raised exception, or a response body. -/
inductive FetchResult where
  | exn
  | ok (body : String)
  deriving DecidableEq, Repr

/-- The retry loop of `get_fund_limit_in_main` (lines 419-527) over the list of
remaining attempt indices. Returns the result string together with the list of
`time.sleep(2 ** attempt)` delays performed, in order. A body shorter than
1000 characters is a soft failure; extraction runs only on an accepted body. -/
def runAttempts (fetch : Nat → FetchResult) (extract : String → String) :
    List Nat → String × List Nat
  | [] => ("获取失败", [])
  | i :: rest =>
      match fetch i with
      | .exn =>
          if rest.isEmpty then ("获取失败", [])
          else
            let p := runAttempts fetch extract rest
            (p.1, 2 ^ i :: p.2)
      | .ok body =>
          if body.length < 1000 then
            if rest.isEmpty then ("获取失败", [])
            else
              let p := runAttempts fetch extract rest
              (p.1, 2 ^ i :: p.2)
          else (extract body, [])

/-- `get_fund_limit_in_main`: `max_retries = 3`, attempt indices 0, 1, 2. The
`extract` argument models the whole BeautifulSoup strategy cascade of lines
464-518, including its `"无限制"` default. -/
def get_fund_limit_in_main (fetch : Nat → FetchResult) (extract : String → String) :
    String × List Nat :=
  runAttempts fetch extract [0, 1, 2]

/-- `get_fund_limit` from fund_limit_fetcher.py: a single attempt with no retry;
an exception or a short body yields the sentinel `"获取失败"`. -/
def get_fund_limit (fetch : FetchResult) (extract : String → String) : String :=
  match fetch with
  | .exn => "获取失败"
  | .ok body => if body.length < 1000 then "获取失败" else extract body

/-- Code-point comparison of strings as Python compares them: lexicographic on
the character sequences. -/
def leChars : List Char → List Char → Bool
  | [], _ => true
  | _ :: _, [] => false
  | a :: as, b :: bs =>
      if a.toNat < b.toNat then true
      else if b.toNat < a.toNat then false
      else leChars as bs

/-- Insert an element into a sorted list, before the first element it compares
`le` to: the insertion step of a stable sort. -/
def insertSorted (le : α → α → Bool) (a : α) : List α → List α
  | [] => [a]
  | b :: l => if le a b then a :: b :: l else b :: insertSorted le a l

/-- Model of Python `list.sort`: a stable sort with respect to `le`. Python's
Timsort is stable, and every stable sort of a total preorder produces the same
list, so insertion sort is an exact model. -/
def stableSort (le : α → α → Bool) : List α → List α
  | [] => []
  | a :: l => insertSorted le a (stableSort le l)

/-- Python dict comprehension `{key(f): f for f in l}` followed by `.get(c)`:
the last binding for a code wins. -/
def dictGet (key : α → String) (l : List α) (c : String) : Option α :=
  l.reverse.find? fun x => key x == c

/-- `sorted(set(basic codes) | set(valuation codes))` (lines 268-269):
the distinct codes in ascending order. -/
def sorted_codes (basic : List FundBasic) (val : List FundValuation) : List String :=
  stableSort (fun a b => leChars a.data b.data)
    ((basic.map FundBasic.code ++ val.map FundValuation.code).dedup)

/-- Lines 275-292: one record per code; the limit lookup is deferred, so
`limit_info` starts out as the empty string. -/
def buildFundInfo (basic : List FundBasic) (val : List FundValuation) (c : String) :
    FundInfo :=
  let nm := ((dictGet FundBasic.code basic c).map FundBasic.name).getD ""
  let pt := get_best_valuation_premium (dictGet FundValuation.code val c)
  { name := nm, code := c, premium_rate := pt.1, valuation_type := pt.2, limit_info := "" }

/-- The `all_funds_info` list before the premium sort. -/
def all_funds_info (basic : List FundBasic) (val : List FundValuation) : List FundInfo :=
  (sorted_codes basic val).map (buildFundInfo basic val)

/-- The comparator realised by Python `list.sort(key=parse_premium_rate,
reverse=True)`: stable, descending by parsed premium. -/
def premiumLe (a b : FundInfo) : Bool :=
  decide (parse_premium_rate (some b.premium_rate) ≤ parse_premium_rate (some a.premium_rate))

/-- Line 306: the pipeline's premium-sorted fund list,
`all_funds_info.sort(key=..., reverse=True)`. -/
def sortedFunds (basic : List FundBasic) (val : List FundValuation) : List FundInfo :=
  stableSort premiumLe (all_funds_info basic val)

/-- Lines 309-312: the threshold filter over the sorted list. -/
def high_premium_funds (threshold : ℚ) (l : List FundInfo) : List FundInfo :=
  l.filter fun f => decide (threshold ≤ parse_premium_rate (some f.premium_rate))

/-- Marker recorded when the per-fund lookup raises, or returns a falsy value
(lines 342-345). -/
def limitFailMarker : String := "无法获取限额信息"

/-- Lines 317-345 for one fund: `fund['limit_info'] = limit_info or marker`, with
the per-fund `except` clause writing the marker. The lookup argument may model
a raised exception with `.error`. -/
def enrichFund (lookup : String → Except Unit String) (f : FundInfo) : FundInfo :=
  match lookup f.code with
  | .error _ => { f with limit_info := limitFailMarker }
  | .ok v => { f with limit_info := if v = "" then limitFailMarker else v }

/-- Python `fund_code[2:]` applied after the SH/SZ test (lines 333-335). -/
def pureFundCode (code : String) : String :=
  if pyStartsWith code "SH" || pyStartsWith code "SZ" then ⟨code.data.drop 2⟩ else code

/-- The branch structure of the per-fund lookup body (lines 319-340): a
predefined config entry wins; the special code SZ161128 goes through
`fund_limit_fetcher.get_fund_limit`; every other code goes through
`get_fund_limit_in_main` on the code without its exchange marker. -/
def mainLookup (cfg : String → Option String) (fetchDetail : String → Nat → FetchResult)
    (fetchModule : FetchResult) (extract : String → String) (code : String) : String :=
  match cfg code with
  | some v => v
  | none =>
      if code = "SZ161128" then get_fund_limit fetchModule extract
      else (get_fund_limit_in_main (fetchDetail (pureFundCode code)) extract).1

/-- The limit-lookup phase (lines 315-345): performed only when the fund-limit
module imported successfully and some fund crossed the threshold. -/
def enrichAll (available : Bool) (lookup : String → Except Unit String)
    (high : List FundInfo) : List FundInfo :=
  if available && !high.isEmpty then high.map (enrichFund lookup) else high

/-- `'─' * 30`. -/
def sepLine : String := ⟨List.replicate 30 '─'⟩

/-- Lines 358-364: the drag tag derived from the exchange marker of the code. -/
def dragInfo (code : String) : String :=
  if pyStartsWith code "SH" then "不拖"
  else if pyStartsWith code "SZ" then "可拖"
  else ""

/-- Lines 368-377: the limit line of one rendered entry. -/
def limitLine (f : FundInfo) : String :=
  if f.limit_info ≠ "" then
    if dragInfo f.code ≠ "" then
      "   🛑 限额: " ++ f.limit_info ++ " (" ++ dragInfo f.code ++ ")\n"
    else
      "   🛑 限额: " ++ f.limit_info ++ "\n"
  else
    if dragInfo f.code ≠ "" then
      "   🛑 限额: 无限制 (" ++ dragInfo f.code ++ ")\n"
    else
      "   🛑 限额: 无限制\n"

/-- One numbered entry block (lines 366-378). -/
def entryBlock (i : Nat) (f : FundInfo) : String :=
  toString i ++ ". 📊 " ++ f.name ++ " (" ++ f.code ++ ")\n" ++
  "   💰 溢价率: " ++ f.premium_rate ++ "\n" ++ limitLine f ++ "\n"

/-- The `for i, fund in enumerate(high_premium_funds[:10], 1)` loop of line 356,
appending entry blocks to the accumulated message. -/
def entriesLoop (funds : List FundInfo) (acc : String) : String :=
  (List.enumFrom 1 (funds.take 10)).foldl (fun m p => m ++ entryBlock p.1 p.2) acc

/-- Lines 380-381: the overflow count line. -/
def moreLine (n : Nat) : String :=
  if 10 < n then "... 还有 " ++ toString (n - 10) ++ " 只基金\n\n" else ""

/-- The full alert message (lines 350-388); the threshold and the timestamp
arrive as already-formatted strings. -/
def buildMessage (thresholdStr : String) (funds : List FundInfo) (timeStr : String) :
    String :=
  entriesLoop funds
    ("📈 基金溢价预警通知\n" ++ sepLine ++ "\n" ++
     ".threshold: " ++ thresholdStr ++ "%\n" ++
     ".high premium funds: " ++ toString funds.length ++ " 只\n" ++
     sepLine ++ "\n\n")
  ++ moreLine funds.length ++ sepLine ++ "\n" ++ "🕒 " ++ timeStr ++ "\n"

/-- `generate_and_save_fund_summary` (lines 237-398), reduced to its pure data
flow: scrape, build, sort, filter, enrich, render. Returns the notification
message, or `none` when nothing is sent. -/
def generate_and_save_fund_summary (scrapeRes : Except String Page) (threshold : ℚ)
    (thresholdStr : String) (available : Bool) (lookup : String → Except Unit String)
    (timeStr : String) : Option String :=
  if (scrape_lof_fund_data scrapeRes).1.isEmpty && (scrape_lof_fund_data scrapeRes).2.isEmpty
  then none
  else
    if !(enrichAll available lookup (high_premium_funds threshold
        (sortedFunds (scrape_lof_fund_data scrapeRes).1
          (scrape_lof_fund_data scrapeRes).2))).isEmpty
    then
      some (buildMessage thresholdStr
        (enrichAll available lookup (high_premium_funds threshold
          (sortedFunds (scrape_lof_fund_data scrapeRes).1
            (scrape_lof_fund_data scrapeRes).2))) timeStr)
    else none

/-! ### Properties of the stable sort model -/

theorem insertSorted_perm (le : α → α → Bool) (a : α) (s : List α) :
    (insertSorted le a s).Perm (a :: s) := by
  induction s with
  | nil => exact List.Perm.refl _
  | cons b t ih =>
      simp only [insertSorted]
      split
      · exact List.Perm.refl _
      · exact (ih.cons b).trans (List.Perm.swap a b t)

theorem stableSort_perm (le : α → α → Bool) (l : List α) : (stableSort le l).Perm l := by
  induction l with
  | nil => exact List.Perm.refl _
  | cons a t ih => exact (insertSorted_perm le a (stableSort le t)).trans (ih.cons a)

theorem mem_insertSorted (le : α → α → Bool) (a x : α) (s : List α) :
    x ∈ insertSorted le a s ↔ x = a ∨ x ∈ s := by
  rw [(insertSorted_perm le a s).mem_iff, List.mem_cons]

theorem pairwise_insertSorted (le : α → α → Bool)
    (htr : ∀ a b c, le a b = true → le b c = true → le a c = true)
    (hto : ∀ a b, le a b || le b a)
    (a : α) (s : List α) (hs : s.Pairwise (le · · = true)) :
    (insertSorted le a s).Pairwise (le · · = true) := by
  induction s with
  | nil => simp [insertSorted]
  | cons b t ih =>
      rcases List.pairwise_cons.mp hs with ⟨hb, ht⟩
      simp only [insertSorted]
      split
      case isTrue hab =>
        refine List.Pairwise.cons ?_ (List.Pairwise.cons hb ht)
        intro x hx
        rcases List.mem_cons.mp hx with rfl | hx
        · exact hab
        · exact htr a b x hab (hb x hx)
      case isFalse hab =>
        refine List.Pairwise.cons ?_ (ih ht)
        intro x hx
        rcases (mem_insertSorted le a x t).mp hx with rfl | hx
        · cases hba : le b x with
          | true => rfl
          | false =>
              have := hto x b
              rw [hba] at this
              simp only [Bool.or_false] at this
              exact absurd this hab
        · exact hb x hx

theorem pairwise_stableSort (le : α → α → Bool)
    (htr : ∀ a b c, le a b = true → le b c = true → le a c = true)
    (hto : ∀ a b, le a b || le b a)
    (l : List α) : (stableSort le l).Pairwise (le · · = true) := by
  induction l with
  | nil => simp [stableSort]
  | cons a t ih => exact pairwise_insertSorted le htr hto a _ ih

theorem self_sublist_insertSorted (le : α → α → Bool) (a : α) (s : List α) :
    s.Sublist (insertSorted le a s) := by
  induction s with
  | nil => simp [insertSorted]
  | cons b t ih =>
      simp only [insertSorted]
      split
      · exact (List.Sublist.refl (b :: t)).cons a
      · exact ih.cons₂ b

theorem sublist_insertSorted (le : α → α → Bool) (a : α) {c s : List α}
    (h : c.Sublist s) : c.Sublist (insertSorted le a s) :=
  h.trans (self_sublist_insertSorted le a s)

theorem sublist_insertSorted_of_le (le : α → α → Bool) (a : α) {c s : List α}
    (hc : ∀ x ∈ c, le a x = true) (hsub : c.Sublist s) :
    (a :: c).Sublist (insertSorted le a s) := by
  induction s generalizing c with
  | nil =>
      rw [List.sublist_nil.mp hsub]
      simp [insertSorted]
  | cons b t ih =>
      simp only [insertSorted]
      split
      case isTrue hab => exact hsub.cons₂ a
      case isFalse hab =>
        cases hsub with
        | cons _ h => exact (ih hc h).cons b
        | cons₂ _ h => exact absurd (hc b (List.mem_cons_self b _)) hab

theorem sublist_stableSort (le : α → α → Bool) {c l : List α}
    (hc : c.Pairwise (le · · = true)) (hsub : c.Sublist l) :
    c.Sublist (stableSort le l) := by
  induction l generalizing c with
  | nil =>
      rw [List.sublist_nil.mp hsub]
      exact List.nil_sublist _
  | cons a t ih =>
      cases hsub with
      | cons _ h => exact sublist_insertSorted le a (ih hc h)
      | cons₂ _ h =>
          rcases List.pairwise_cons.mp hc with ⟨ha, hc'⟩
          exact sublist_insertSorted_of_le le a ha (ih hc' h)

theorem leChars_total (a b : List Char) : leChars a b || leChars b a := by
  induction a generalizing b with
  | nil => simp [leChars]
  | cons x xs ih =>
      cases b with
      | nil => simp [leChars]
      | cons y ys =>
          simp only [leChars]
          by_cases h1 : x.toNat < y.toNat
          · simp [h1]
          · by_cases h2 : y.toNat < x.toNat
            · simp [h1, h2]
            · simpa [h1, h2] using ih ys

theorem leChars_trans (a b c : List Char) (h1 : leChars a b = true) (h2 : leChars b c = true) :
    leChars a c = true := by
  induction a generalizing b c with
  | nil => simp [leChars]
  | cons x xs ih =>
      cases b with
      | nil => simp [leChars] at h1
      | cons y ys =>
          cases c with
          | nil => simp [leChars] at h2
          | cons z zs =>
              simp only [leChars] at h1 h2 ⊢
              by_cases hxy : x.toNat < y.toNat
              · by_cases hyz : y.toNat < z.toNat
                · simp [show x.toNat < z.toNat by omega]
                · by_cases hzy : z.toNat < y.toNat
                  · simp [hyz, hzy] at h2
                  · simp [show x.toNat < z.toNat by omega]
              · by_cases hyx : y.toNat < x.toNat
                · simp [hxy, hyx] at h1
                · by_cases hyz : y.toNat < z.toNat
                  · simp [show x.toNat < z.toNat by omega]
                  · by_cases hzy : z.toNat < y.toNat
                    · simp [hyz, hzy] at h2
                    · have hxz : ¬ x.toNat < z.toNat := by omega
                      have hzx : ¬ z.toNat < x.toNat := by omega
                      simp only [hxy, hyx, if_false, if_neg, not_false_eq_true] at h1
                      simp only [hyz, hzy, if_false, if_neg, not_false_eq_true] at h2
                      simp only [hxz, hzx, if_false, if_neg, not_false_eq_true]
                      exact ih ys zs h1 h2

theorem pairwise_of_forall_rel {R : α → α → Prop} (h : ∀ a b, R a b) (l : List α) :
    l.Pairwise R := by
  induction l with
  | nil => exact List.Pairwise.nil
  | cons a t ih => exact List.Pairwise.cons (fun b _ => h a b) ih

/-- Stability of the sort, phrased through sort keys: elements whose keys tie
keep every pairwise relation the input list had (in particular, their relative
order). -/
theorem stableSort_key_tie {α : Type} (key : α → ℚ) {R : α → α → Prop}
    {l : List α} (h : l.Pairwise R) :
    (stableSort (fun a b => decide (key b ≤ key a)) l).Pairwise
      (fun a b => key a = key b → R a b) := by
  have htr : ∀ a b c : α, decide (key b ≤ key a) = true → decide (key c ≤ key b) = true →
      decide (key c ≤ key a) = true := by
    intro a b c h1 h2
    simp only [decide_eq_true_eq] at h1 h2 ⊢
    exact le_trans h2 h1
  have hto : ∀ a b : α, decide (key b ≤ key a) || decide (key a ≤ key b) := by
    intro a b
    rcases le_total (key b) (key a) with hh | hh <;> simp [hh]
  rw [List.pairwise_iff_get]
  intro i j hij hkeq
  have hout_pw : (stableSort (fun a b => decide (key b ≤ key a)) l).Pairwise
      (fun x y => key x = key ((stableSort (fun a b => decide (key b ≤ key a)) l).get i) →
        key y = key ((stableSort (fun a b => decide (key b ≤ key a)) l).get i) → R x y) := by
    set q := key ((stableSort (fun a b => decide (key b ≤ key a)) l).get i) with hq
    have hcp : (List.filter (fun f => decide (key f = q)) l).Pairwise
        ((fun a b => decide (key b ≤ key a)) · · = true) := by
      rw [List.pairwise_filter]
      refine pairwise_of_forall_rel (fun x y => ?_) l
      intro hx hy
      simp only [decide_eq_true_eq]
      rw [hx, hy]
    have hsubout : (List.filter (fun f => decide (key f = q)) l).Sublist
        (stableSort (fun a b => decide (key b ≤ key a)) l) :=
      sublist_stableSort _ hcp (List.filter_sublist l)
    have hperm : (List.filter (fun f => decide (key f = q))
          (stableSort (fun a b => decide (key b ≤ key a)) l)).Perm
        (List.filter (fun f => decide (key f = q)) l) :=
      (stableSort_perm _ l).filter _
    have hidem : List.filter (fun f => decide (key f = q))
          (List.filter (fun f => decide (key f = q)) l)
        = List.filter (fun f => decide (key f = q)) l := by
      rw [List.filter_eq_self]
      intro a ha
      exact (List.mem_filter.mp ha).2
    have hsub2 : (List.filter (fun f => decide (key f = q)) l).Sublist
        (List.filter (fun f => decide (key f = q))
          (stableSort (fun a b => decide (key b ≤ key a)) l)) := by
      have hfil := hsubout.filter (fun f => decide (key f = q))
      rwa [hidem] at hfil
    have heq : List.filter (fun f => decide (key f = q)) l
        = List.filter (fun f => decide (key f = q))
            (stableSort (fun a b => decide (key b ≤ key a)) l) :=
      hsub2.eq_of_length hperm.length_eq.symm
    have hRfil : (List.filter (fun f => decide (key f = q))
        (stableSort (fun a b => decide (key b ≤ key a)) l)).Pairwise R := by
      rw [← heq]
      exact List.Pairwise.sublist (List.filter_sublist l) h
    exact List.pairwise_filter.mp hRfil
  have hpair := (List.pairwise_iff_get.mp hout_pw) i j hij
  exact hpair rfl hkeq.symm

theorem premiumLe_trans (a b c : FundInfo)
    (h1 : premiumLe a b = true) (h2 : premiumLe b c = true) : premiumLe a c = true := by
  simp only [premiumLe, decide_eq_true_eq] at h1 h2 ⊢
  exact le_trans h2 h1

theorem premiumLe_total (a b : FundInfo) : premiumLe a b || premiumLe b a := by
  simp only [premiumLe]
  rcases le_total (parse_premium_rate (some b.premium_rate))
    (parse_premium_rate (some a.premium_rate)) with hh | hh <;> simp [hh]

theorem sorted_codes_pairwise (basic : List FundBasic) (val : List FundValuation) :
    (sorted_codes basic val).Pairwise
      (fun a b => leChars a.data b.data = true ∧ a ≠ b) := by
  have hle : (sorted_codes basic val).Pairwise
      (fun a b : String => leChars a.data b.data = true) := by
    refine pairwise_stableSort _ ?_ ?_ _
    · intro a b c h1 h2
      exact leChars_trans _ _ _ h1 h2
    · intro a b
      exact leChars_total _ _
  have hnd : (sorted_codes basic val).Nodup := by
    have hperm := stableSort_perm (fun a b : String => leChars a.data b.data)
      ((basic.map FundBasic.code ++ val.map FundValuation.code).dedup)
    exact hperm.nodup_iff.mpr (List.nodup_dedup _)
  exact hle.and hnd

theorem all_funds_info_pairwise (basic : List FundBasic) (val : List FundValuation) :
    (all_funds_info basic val).Pairwise
      (fun a b => leChars a.code.data b.code.data = true ∧ a.code ≠ b.code) := by
  unfold all_funds_info
  rw [List.pairwise_map]
  refine (sorted_codes_pairwise basic val).imp ?_
  intro a b hab
  exact hab

theorem length_filterMap_eq_length_filter (f : α → Option β) (p : α → Bool)
    (h : ∀ a, (f a).isSome = p a) :
    ∀ l : List α, (l.filterMap f).length = (l.filter p).length := by
  intro l
  induction l with
  | nil => rfl
  | cons a t ih =>
      rw [List.filterMap_cons, List.filter_cons]
      cases hfa : f a with
      | none =>
          have hpa : p a = false := by rw [← h a, hfa]; rfl
          rw [hpa]
          simpa using ih
      | some b =>
          have hpa : p a = true := by rw [← h a, hfa]; rfl
          rw [hpa]
          simpa using ih

/-! ### Claim theorems -/

/-- C1: for every valuation record the resolver returns the first non-blank
premium in the fixed priority order reference > real-time > official — no
numeric hypothesis appears, so magnitudes are irrelevant; when all three are
blank, or the record is absent, it returns the empty premium with the empty
("none") source. The function is total, so it never raises. -/
theorem c1_resolver_priority :
    (∀ fv : FundValuation,
      (nonBlank fv.refPremium = true →
        get_best_valuation_premium (some fv) = (fv.refPremium, "参考")) ∧
      (nonBlank fv.refPremium = false → nonBlank fv.rtPremium = true →
        get_best_valuation_premium (some fv) = (fv.rtPremium, "实时")) ∧
      (nonBlank fv.refPremium = false → nonBlank fv.rtPremium = false →
        nonBlank fv.premium = true →
        get_best_valuation_premium (some fv) = (fv.premium, "官方")) ∧
      (nonBlank fv.refPremium = false → nonBlank fv.rtPremium = false →
        nonBlank fv.premium = false →
        get_best_valuation_premium (some fv) = ("", ""))) ∧
    get_best_valuation_premium none = ("", "") := by
  refine ⟨fun fv => ⟨?_, ?_, ?_, ?_⟩, rfl⟩ <;>
    intros <;> simp only [get_best_valuation_premium] <;> simp [*]

/-- Witness for C1 at the spec's scenario record (SH501300, reference premium
"8.50%", no real-time premium, official "7.00%"). -/
theorem c1_resolver_priority_witness :
    nonBlank "8.50%" = true ∧
    get_best_valuation_premium (some ⟨"SH501300", "1.05", "2025-01-01", "7.00%",
      "1.06", "8.50%", "", ""⟩) = ("8.50%", "参考") :=
  ⟨by decide, (c1_resolver_priority.1 ⟨"SH501300", "1.05", "2025-01-01", "7.00%",
      "1.06", "8.50%", "", ""⟩).1 (by decide)⟩

/-- C4: the threshold filter keeps exactly the entries whose parsed premium is
at least the threshold; in particular an entry whose parsed premium equals the
threshold exactly is selected. -/
theorem c4_threshold_inclusive (threshold : ℚ) (l : List FundInfo) (f : FundInfo) :
    (f ∈ high_premium_funds threshold l ↔
      f ∈ l ∧ threshold ≤ parse_premium_rate (some f.premium_rate)) ∧
    (parse_premium_rate (some f.premium_rate) = threshold → f ∈ l →
      f ∈ high_premium_funds threshold l) := by
  constructor
  · simp [high_premium_funds, List.mem_filter]
  · intro he hm
    exact List.mem_filter.mpr ⟨hm, by simp [he]⟩

/-- Witness for C4: an entry whose parsed premium is exactly the 5.0 threshold
is selected. -/
theorem c4_threshold_inclusive_witness :
    (⟨"N", "SH500001", "5%", "参考", ""⟩ : FundInfo) ∈
      high_premium_funds 5 [⟨"N", "SH500001", "5%", "参考", ""⟩] := by
  refine (c4_threshold_inclusive 5 [⟨"N", "SH500001", "5%", "参考", ""⟩]
    ⟨"N", "SH500001", "5%", "参考", ""⟩).2 ?_ (by simp)
  rw [show parse_premium_rate (some "5%") = ((digitsNat ['5'] : ℕ) : ℚ) from rfl,
    show digitsNat ['5'] = 5 from by decide]
  simp

/-- C5: a table row yields a record exactly when it has the required minimum
cell count (6 basic, 4 valuation) and its first cell is a valid SH/SZ code of
length ≥ 6; rows failing either test contribute nothing to the output (the
output length equals the number of passing rows); and in a kept valuation row
the reference pair (columns 4-5) and real-time pair (columns 6-7) are filled
only when the row has ≥ 6 and ≥ 8 cells respectively, staying blank otherwise. -/
theorem c5_row_validation :
    (∀ r : Row, (basicOfRow r).isSome =
      (decide (6 ≤ r.cells.length) && validCode (cell r 0))) ∧
    (∀ r : Row, (valuationOfRow r).isSome =
      (decide (4 ≤ r.cells.length) && validCode (cell r 0))) ∧
    (∀ rows : List Row, ((rows.drop 1).filterMap basicOfRow).length =
      ((rows.drop 1).filter fun r =>
        decide (6 ≤ r.cells.length) && validCode (cell r 0)).length) ∧
    (∀ rows : List Row, ((rows.drop 1).filterMap valuationOfRow).length =
      ((rows.drop 1).filter fun r =>
        decide (4 ≤ r.cells.length) && validCode (cell r 0)).length) ∧
    (∀ r v, valuationOfRow r = some v →
      (v.refEst, v.refPremium)
        = (if 6 ≤ r.cells.length then (cell r 4, cell r 5) else ("", "")) ∧
      (v.rtEst, v.rtPremium)
        = (if 8 ≤ r.cells.length then (cell r 6, cell r 7) else ("", ""))) := by
  have hb : ∀ r : Row, (basicOfRow r).isSome =
      (decide (6 ≤ r.cells.length) && validCode (cell r 0)) := by
    intro r
    by_cases h6 : 6 ≤ r.cells.length
    · cases hv : validCode (cell r 0) <;> simp [basicOfRow, h6, hv]
    · simp [basicOfRow, h6]
  have hv : ∀ r : Row, (valuationOfRow r).isSome =
      (decide (4 ≤ r.cells.length) && validCode (cell r 0)) := by
    intro r
    by_cases h4 : 4 ≤ r.cells.length
    · cases hvc : validCode (cell r 0) <;> simp [valuationOfRow, h4, hvc]
    · simp [valuationOfRow, h4]
  refine ⟨hb, hv, ?_, ?_, ?_⟩
  · intro rows
    exact length_filterMap_eq_length_filter _ _ hb _
  · intro rows
    exact length_filterMap_eq_length_filter _ _ hv _
  · intro r v h
    unfold valuationOfRow at h
    by_cases h4 : 4 ≤ r.cells.length
    · rw [if_pos h4] at h
      by_cases hvc : validCode (cell r 0) = true
      · rw [if_pos hvc] at h
        cases h
        constructor
        · by_cases h6 : 6 ≤ r.cells.length <;> simp [h6]
        · by_cases h8 : 8 ≤ r.cells.length <;> simp [h8]
      · rw [if_neg hvc] at h
        exact absurd h (by simp)
    · rw [if_neg h4] at h
      exact absurd h (by simp)

/-- Witness for C5: a 4-cell valuation row is kept with both optional premium
pairs left blank. -/
theorem c5_row_validation_witness :
    valuationOfRow ⟨["SH500001", "1.00", "2025-01-01", "3%"]⟩ =
      some ⟨"SH500001", "1.00", "2025-01-01", "3%", "", "", "", ""⟩ ∧
    ((⟨"SH500001", "1.00", "2025-01-01", "3%", "", "", "", ""⟩ : FundValuation).refEst,
     (⟨"SH500001", "1.00", "2025-01-01", "3%", "", "", "", ""⟩ : FundValuation).refPremium)
      = ("", "") := by
  refine ⟨by decide, ?_⟩
  have h := (c5_row_validation.2.2.2.2 ⟨["SH500001", "1.00", "2025-01-01", "3%"]⟩
    ⟨"SH500001", "1.00", "2025-01-01", "3%", "", "", "", ""⟩ (by decide)).1
  rw [h]

/-- C6: an exception during the aggregator scrape yields `([], [])`, and a run
whose scrape produced two empty sequences sends no notification. -/
theorem c6_scrape_failure_silent (e : String) (threshold : ℚ) (thresholdStr : String)
    (available : Bool) (lookup : String → Except Unit String) (timeStr : String) :
    scrape_lof_fund_data (.error e) = ([], []) ∧
    (∀ res : Except String Page, scrape_lof_fund_data res = ([], []) →
      generate_and_save_fund_summary res threshold thresholdStr available lookup timeStr
        = none) ∧
    generate_and_save_fund_summary (.error e) threshold thresholdStr available lookup timeStr
      = none := by
  refine ⟨rfl, ?_, rfl⟩
  intro res h
  simp [generate_and_save_fund_summary, h]

/-- Witness for C6: an unreachable aggregator page produces no notification. -/
theorem c6_scrape_failure_silent_witness :
    generate_and_save_fund_summary (.error "timeout") 5 "5.0" true
      (fun _ => .ok "") "2025-01-01 12:00" = none :=
  (c6_scrape_failure_silent "timeout" 5 "5.0" true (fun _ => .ok "")
    "2025-01-01 12:00").2.1 (.error "timeout") rfl

/-- C10: with the fund-limit module unavailable the enrichment phase is skipped
entirely — the run is independent of the lookup (and hence of the predefined
overrides bundled in it), every fund entering the alert keeps
`limit_info = ""`, and such an entry's rendered limit line shows the
unrestricted ("无限制") marker. -/
theorem c10_module_unavailable :
    (∀ (lookup : String → Except Unit String) (high : List FundInfo),
      enrichAll false lookup high = high) ∧
    (∀ (scrapeRes : Except String Page) (threshold : ℚ) (thresholdStr timeStr : String)
        (lookup1 lookup2 : String → Except Unit String),
      generate_and_save_fund_summary scrapeRes threshold thresholdStr false lookup1 timeStr =
        generate_and_save_fund_summary scrapeRes threshold thresholdStr false lookup2 timeStr) ∧
    (∀ basic val threshold f,
      f ∈ high_premium_funds threshold (sortedFunds basic val) → f.limit_info = "") ∧
    (∀ f : FundInfo, f.limit_info = "" →
      limitLine f = (if dragInfo f.code ≠ "" then
        "   🛑 限额: 无限制 (" ++ dragInfo f.code ++ ")\n" else "   🛑 限额: 无限制\n")) := by
  refine ⟨?_, ?_, ?_, ?_⟩
  · intro lookup high
    simp [enrichAll]
  · intro scrapeRes threshold thresholdStr timeStr l1 l2
    simp [generate_and_save_fund_summary, enrichAll]
  · intro basic val threshold f hf
    have h1 : f ∈ sortedFunds basic val := (List.mem_filter.mp hf).1
    unfold sortedFunds at h1
    have h2 : f ∈ all_funds_info basic val :=
      (stableSort_perm premiumLe (all_funds_info basic val)).mem_iff.mp h1
    rcases List.mem_map.mp h2 with ⟨c, _, rfl⟩
    rfl
  · intro f hf
    simp [limitLine, hf]

/-- Witness for C10: a concrete fund entering the alert list with an empty
limit-info field. -/
theorem c10_module_unavailable_witness :
    (buildFundInfo [⟨"SH500001", "1.0", "2%", "d", "t", "N"⟩] [] "SH500001").limit_info
      = "" :=
  c10_module_unavailable.2.2.1 [⟨"SH500001", "1.0", "2%", "d", "t", "N"⟩] [] 0
    (buildFundInfo [⟨"SH500001", "1.0", "2%", "d", "t", "N"⟩] [] "SH500001") (by decide)

theorem parseDec?_chars {l : List Char} {x : ℚ} (h : parseDec? l = some x) :
    ∀ c ∈ l, c.isDigit = true ∨ c = '.' := by
  intro c hc
  have hsplit := List.takeWhile_append_dropWhile (fun c : Char => c.isDigit) l
  unfold parseDec? at h
  split at h
  case _ heq =>
      left
      have hl : l = l.takeWhile (fun c : Char => c.isDigit) := by
        conv_lhs => rw [← hsplit]
        rw [heq, List.append_nil]
      rw [hl] at hc
      exact List.mem_takeWhile_imp hc
  case _ frac heq =>
      split at h
      case isTrue hcond =>
          have hall : frac.all (fun c : Char => c.isDigit) = true :=
            ((Bool.and_eq_true _ _).mp hcond).1
          rw [← hsplit, heq] at hc
          rcases List.mem_append.mp hc with h1 | h2
          · exact Or.inl (List.mem_takeWhile_imp h1)
          · rcases List.mem_cons.mp h2 with rfl | h3
            · exact Or.inr rfl
            · exact Or.inl (List.all_eq_true.mp hall c h3)
      case isFalse => exact absurd h (by simp)
  case _ => exact absurd h (by simp)

theorem pyFloat?_ne_nil {t : String} {x : ℚ} (h : pyFloat? t = some x) : t.data ≠ [] := by
  intro hnil
  rw [show t = ⟨[]⟩ from String.ext hnil] at h
  rw [show pyFloat? ⟨[]⟩ = none from rfl] at h
  exact Option.noConfusion h

theorem pyFloat?_chars {t : String} {x : ℚ} (h : pyFloat? t = some x) :
    ∀ c ∈ t.data, c ≠ '%' := by
  have hdig : ∀ c : Char, c.isDigit = true → c ≠ '%' := by
    intro c hcd hce
    subst hce
    exact absurd hcd (by decide)
  unfold pyFloat? at h
  split at h
  case _ l heq =>
      intro c hc
      rw [heq] at hc
      rcases List.mem_cons.mp hc with rfl | hc
      · decide
      · rcases parseDec?_chars h c hc with hd | rfl
        · exact hdig c hd
        · decide
  case _ l heq =>
      intro c hc
      rw [heq] at hc
      rcases Option.map_eq_some'.mp h with ⟨y, hy, _⟩
      rcases List.mem_cons.mp hc with rfl | hc
      · decide
      · rcases parseDec?_chars hy c hc with hd | rfl
        · exact hdig c hd
        · decide
  case _ =>
      intro c hc
      rcases parseDec?_chars h c hc with hd | rfl
      · exact hdig c hd
      · decide

theorem dropWhile_percent_eq_self {m : List Char}
    (h : ∀ c ∈ m, c ≠ '%') : m.dropWhile (fun c => c = '%') = m := by
  cases m with
  | nil => rfl
  | cons a t =>
      rw [List.dropWhile_cons, if_neg]
      simp [h a (List.mem_cons_self a t)]

theorem stripPercentChars_append {l : List Char} (hne : l ≠ [])
    (hnp : ∀ c ∈ l, c ≠ '%') :
    stripPercentChars ⟨l ++ ['%']⟩ = ⟨l⟩ := by
  have hlist : ((((l ++ ['%']).dropWhile fun c => c = '%').reverse.dropWhile
      fun c => c = '%').reverse) = l := by
    have h1 : (l ++ ['%']).dropWhile (fun c => c = '%') = l ++ ['%'] := by
      cases l with
      | nil => exact absurd rfl hne
      | cons a t =>
          rw [List.cons_append, List.dropWhile_cons, if_neg]
          simp [hnp a (List.mem_cons_self a t)]
    rw [h1, List.reverse_append]
    have h2 : ((['%'] : List Char).reverse ++ l.reverse) = '%' :: l.reverse := by simp
    rw [h2, List.dropWhile_cons, if_pos (by simp)]
    rw [dropWhile_percent_eq_self fun c hcm => hnp c (List.mem_reverse.mp hcm)]
    exact List.reverse_reverse l
  exact congrArg String.mk hlist

theorem pyEndsWith_append_percent (l : List Char) :
    pyEndsWith ⟨l ++ ['%']⟩ "%" = true := by
  unfold pyEndsWith
  rw [List.isSuffixOf_iff_suffix]
  exact List.suffix_append l ['%']

/-- C2: a premium string built from a numeric literal followed by `%` parses to
that literal's value (Python's `strip('%')` removes the trailing `%`); a
non-`%`-suffixed string that fails numeric parsing, the empty string, and a
`None` argument all yield 0.0 instead of raising; and the substitution touches
only ranked comparisons — the sort only permutes the stored premium strings,
and the rendered entry displays the raw premium string unchanged. -/
theorem c2_parse_premium_rate (t s : String) (x : ℚ) :
    (pyFloat? t = some x → parse_premium_rate (some (t ++ "%")) = x) ∧
    (pyEndsWith s "%" = false → pyFloat? s = none → parse_premium_rate (some s) = 0) ∧
    (∀ u : String, pyEndsWith u "%" = true → pyFloat? (stripPercentChars u) = none →
      parse_premium_rate (some u) = 0) ∧
    parse_premium_rate none = 0 ∧
    (∀ basic val, ((sortedFunds basic val).map FundInfo.premium_rate).Perm
        ((all_funds_info basic val).map FundInfo.premium_rate)) ∧
    (∀ i f, entryBlock i f =
      toString i ++ ". 📊 " ++ f.name ++ " (" ++ f.code ++ ")\n" ++
      "   💰 溢价率: " ++ f.premium_rate ++ "\n" ++ limitLine f ++ "\n") := by
  refine ⟨?_, ?_, ?_, rfl, ?_, fun i f => rfl⟩
  · intro h
    have hne := pyFloat?_ne_nil h
    have hnp := pyFloat?_chars h
    have happ : (t ++ "%") = ⟨t.data ++ ['%']⟩ := String.ext (by rw [String.data_append])
    have hends : pyEndsWith (t ++ "%") "%" = true := by
      rw [happ]
      exact pyEndsWith_append_percent t.data
    have hstrip : stripPercentChars (t ++ "%") = t := by
      rw [happ, stripPercentChars_append hne hnp]
    unfold parse_premium_rate
    simp only [hends, if_true]
    rw [hstrip, h]
    rfl
  · intro hend hnone
    unfold parse_premium_rate
    simp only [hend, Bool.false_eq_true, if_false]
    rcases eq_or_ne s "" with rfl | hs
    · simp
    · simp [hs, hnone]
  · intro u h1 h2
    unfold parse_premium_rate
    simp only [h1, if_true]
    rw [h2]
    rfl
  · intro basic val
    exact (stableSort_perm premiumLe (all_funds_info basic val)).map _

/-- Witness for C2: `"12" ++ "%"` parses to 12. -/
theorem c2_parse_premium_rate_witness :
    pyFloat? "12" = some (12 : ℚ) ∧ parse_premium_rate (some ("12" ++ "%")) = 12 := by
  have h : pyFloat? "12" = some (12 : ℚ) := by
    rw [show pyFloat? "12" = some ((digitsNat ['1', '2'] : ℕ) : ℚ) from rfl,
      show digitsNat ['1', '2'] = 12 from by decide]
    simp
  exact ⟨h, (c2_parse_premium_rate "12" "" 12).1 h⟩

/-- Soft failure of one fetch attempt (lines 456-461 and 520-525): a raised
exception, or a body under 1000 characters. -/
def softFail (r : FetchResult) : Bool :=
  match r with
  | .exn => true
  | .ok body => decide (body.length < 1000)

theorem softFail_iff (r : FetchResult) :
    softFail r = true ↔ r = .exn ∨ ∃ b, r = .ok b ∧ b.length < 1000 := by
  cases r with
  | exn => simp [softFail]
  | ok body => simp [softFail]

theorem runAttempts_softFail (fetch : Nat → FetchResult) (extract : String → String)
    (i : Nat) (rest : List Nat) (h : softFail (fetch i) = true) :
    runAttempts fetch extract (i :: rest) =
      if rest.isEmpty then ("获取失败", [])
      else ((runAttempts fetch extract rest).1,
        2 ^ i :: (runAttempts fetch extract rest).2) := by
  cases hf : fetch i with
  | exn => simp [runAttempts, hf]
  | ok body =>
      have hlen : body.length < 1000 := by
        rw [hf] at h
        simpa [softFail] using h
      simp [runAttempts, hf, hlen]

theorem runAttempts_success (fetch : Nat → FetchResult) (extract : String → String)
    (i : Nat) (rest : List Nat) (body : String)
    (hf : fetch i = .ok body) (hlen : 1000 ≤ body.length) :
    runAttempts fetch extract (i :: rest) = (extract body, []) := by
  simp [runAttempts, hf, Nat.not_lt.mpr hlen]

/-- C7 counterexample: with every attempt failing, the delays actually slept
are 2^0 = 1 second and 2^1 = 2 seconds — not the 0, 2, 4 seconds the claim
enumerates (2^0 is 1, and no sleep follows the final attempt). -/
theorem c7_backoff_delays_counterexample :
    (get_fund_limit_in_main (fun _ => .exn) (fun _ => "")).2 = [1, 2] ∧
    ([1, 2] : List Nat) ≠ [0, 2, 4] :=
  ⟨rfl, by decide⟩

/-- C7 (amended): the fetcher makes at most 3 attempts — its result depends
only on attempts 0, 1, 2; an exception or a body under 1000 characters is a
soft failure that triggers a retry; the delay slept after failed attempt `i`
is `2 ^ i` seconds, so 1 s then 2 s, and no delay follows the final attempt;
after all three attempts fail the sentinel "获取失败" is returned and the
extraction strategies are never applied (the result is independent of the
extractor). -/
theorem c7_fetcher_retry (fetch : Nat → FetchResult) (extract : String → String) :
    (∀ g : Nat → FetchResult, g 0 = fetch 0 → g 1 = fetch 1 → g 2 = fetch 2 →
      get_fund_limit_in_main g extract = get_fund_limit_in_main fetch extract) ∧
    ((∀ i, i < 3 → softFail (fetch i) = true) →
      get_fund_limit_in_main fetch extract = ("获取失败", [1, 2]) ∧
      ∀ extract2 : String → String,
        get_fund_limit_in_main fetch extract2 = get_fund_limit_in_main fetch extract) ∧
    (∀ body, fetch 0 = .ok body → 1000 ≤ body.length →
      get_fund_limit_in_main fetch extract = (extract body, [])) ∧
    (∀ body, softFail (fetch 0) = true → fetch 1 = .ok body → 1000 ≤ body.length →
      get_fund_limit_in_main fetch extract = (extract body, [1])) ∧
    (∀ body, softFail (fetch 0) = true → softFail (fetch 1) = true →
      fetch 2 = .ok body → 1000 ≤ body.length →
      get_fund_limit_in_main fetch extract = (extract body, [1, 2])) := by
  refine ⟨?_, ?_, ?_, ?_, ?_⟩
  · intro g h0 h1 h2
    simp only [get_fund_limit_in_main, runAttempts, h0, h1, h2]
  · intro hall
    have h0 := hall 0 (by omega)
    have h1 := hall 1 (by omega)
    have h2 := hall 2 (by omega)
    have key : ∀ ex : String → String,
        get_fund_limit_in_main fetch ex = ("获取失败", [1, 2]) := by
      intro ex
      rcases (softFail_iff _).mp h0 with hf0 | ⟨b0, hf0, hl0⟩ <;>
        rcases (softFail_iff _).mp h1 with hf1 | ⟨b1, hf1, hl1⟩ <;>
          rcases (softFail_iff _).mp h2 with hf2 | ⟨b2, hf2, hl2⟩ <;>
            simp [get_fund_limit_in_main, runAttempts, *]
    exact ⟨key extract, fun ex2 => by rw [key ex2, key extract]⟩
  · intro body hf hlen
    simp only [get_fund_limit_in_main]
    exact runAttempts_success fetch extract 0 [1, 2] body hf hlen
  · intro body h0 hf1 hl1
    simp only [get_fund_limit_in_main]
    rw [runAttempts_softFail fetch extract 0 [1, 2] h0,
      runAttempts_success fetch extract 1 [2] body hf1 hl1]
    simp
  · intro body h0 h1 hf2 hl2
    simp only [get_fund_limit_in_main]
    rw [runAttempts_softFail fetch extract 0 [1, 2] h0,
      runAttempts_softFail fetch extract 1 [2] h1,
      runAttempts_success fetch extract 2 [] body hf2 hl2]
    simp

/-- Witness for C7 (amended): three 5-character bodies exhaust the retries. -/
theorem c7_fetcher_retry_witness :
    get_fund_limit_in_main (fun _ => .ok "short") (fun _ => "EXTRACTED")
      = ("获取失败", [1, 2]) :=
  ((c7_fetcher_retry (fun _ => .ok "short") (fun _ => "EXTRACTED")).2.1
    (fun i _ => by decide)).1

/-- C8 counterexample: a fund whose limit lookup exhausts its fetch retries is
recorded with the fetch sentinel "获取失败" — `limit_info or marker` keeps any
non-empty string — and not with the claimed "无法获取限额信息" marker. -/
theorem c8_exhausted_retry_counterexample :
    (get_fund_limit_in_main (fun _ => .exn) (fun _ => "无限制")).1 = "获取失败" ∧
    enrichAll true
      (fun c => .ok (mainLookup (fun _ => none) (fun _ _ => .exn) .exn
        (fun _ => "无限制") c))
      [⟨"F", "SH501301", "9%", "参考", ""⟩]
      = [⟨"F", "SH501301", "9%", "参考", "获取失败"⟩] ∧
    ("获取失败" : String) ≠ limitFailMarker :=
  ⟨rfl, by decide, by decide⟩

/-- C8 (amended): the limit-lookup phase maps over the whole batch, so one
fund's failure never aborts the remaining funds; a lookup that raises an
exception, or returns an empty (falsy) value, is recorded as the
"无法获取限额信息" marker; a lookup returning any non-empty string — including
the exhausted-retries sentinel "获取失败" — is recorded verbatim. -/
theorem c8_lookup_failure (lookup : String → Except Unit String) (high : List FundInfo) :
    (enrichAll true lookup high = high.map (enrichFund lookup)) ∧
    (∀ f : FundInfo, lookup f.code = .error () →
      enrichFund lookup f = { f with limit_info := limitFailMarker }) ∧
    (∀ f : FundInfo, lookup f.code = .ok "" →
      enrichFund lookup f = { f with limit_info := limitFailMarker }) ∧
    (∀ (f : FundInfo) (v : String), lookup f.code = .ok v → v ≠ "" →
      enrichFund lookup f = { f with limit_info := v }) := by
  refine ⟨?_, ?_, ?_, ?_⟩
  · cases high with
    | nil => simp [enrichAll]
    | cons a t => simp [enrichAll]
  · intro f hf
    simp [enrichFund, hf]
  · intro f hf
    simp [enrichFund, hf]
  · intro f v hf hv
    simp [enrichFund, hf, hv]

/-- Witness for C8 (amended): a lookup that raises records the marker. -/
theorem c8_lookup_failure_witness :
    enrichFund (fun _ => .error ()) ⟨"F", "SH501301", "9%", "参考", ""⟩ =
      ⟨"F", "SH501301", "9%", "参考", limitFailMarker⟩ :=
  (c8_lookup_failure (fun _ => .error ()) []).2.1
    ⟨"F", "SH501301", "9%", "参考", ""⟩ rfl

/-- Concatenation of a list of strings, in order. -/
def strConcat (l : List String) : String := l.foldr (· ++ ·) ""

theorem foldl_entryBlocks (l : List (ℕ × FundInfo)) (acc : String) :
    l.foldl (fun m p => m ++ entryBlock p.1 p.2) acc
      = acc ++ strConcat (l.map fun p => entryBlock p.1 p.2) := by
  induction l generalizing acc with
  | nil => simp [strConcat, String.append_empty]
  | cons p t ih =>
      rw [List.foldl_cons, ih, List.map_cons]
      rw [show strConcat ((fun p : ℕ × FundInfo => entryBlock p.1 p.2) p
            :: (t.map fun p => entryBlock p.1 p.2))
          = entryBlock p.1 p.2 ++ strConcat (t.map fun p => entryBlock p.1 p.2) from rfl]
      rw [String.append_assoc]

/-- C9: the rendered message is the header, then exactly the first
`min 10 length` post-sort entries numbered from 1, then — exactly when more
than 10 funds crossed the threshold — one count line whose count is the total
minus 10, then the footer; and the pipeline's message is rendered from the
enriched, threshold-filtered, premium-sorted list. -/
theorem c9_message_caps_ten (thresholdStr timeStr : String) (funds : List FundInfo) :
    (buildMessage thresholdStr funds timeStr =
      ("📈 基金溢价预警通知\n" ++ sepLine ++ "\n" ++
       ".threshold: " ++ thresholdStr ++ "%\n" ++
       ".high premium funds: " ++ toString funds.length ++ " 只\n" ++
       sepLine ++ "\n\n")
      ++ strConcat ((List.enumFrom 1 (funds.take 10)).map fun p => entryBlock p.1 p.2)
      ++ moreLine funds.length ++ sepLine ++ "\n" ++ "🕒 " ++ timeStr ++ "\n") ∧
    ((List.enumFrom 1 (funds.take 10)).map Prod.fst = List.range' 1 (min 10 funds.length)) ∧
    ((List.enumFrom 1 (funds.take 10)).map Prod.snd = funds.take 10) ∧
    ((List.enumFrom 1 (funds.take 10)).length ≤ 10) ∧
    (10 < funds.length →
      moreLine funds.length = "... 还有 " ++ toString (funds.length - 10) ++ " 只基金\n\n") ∧
    (funds.length ≤ 10 → moreLine funds.length = "") ∧
    (∀ (scrapeRes : Except String Page) (threshold : ℚ) (available : Bool)
        (lookup : String → Except Unit String) (msg : String),
      generate_and_save_fund_summary scrapeRes threshold thresholdStr available lookup timeStr
        = some msg →
      msg = buildMessage thresholdStr
        (enrichAll available lookup (high_premium_funds threshold
          (sortedFunds (scrape_lof_fund_data scrapeRes).1 (scrape_lof_fund_data scrapeRes).2)))
        timeStr) := by
  refine ⟨?_, ?_, ?_, ?_, ?_, ?_, ?_⟩
  · unfold buildMessage entriesLoop
    rw [foldl_entryBlocks]
  · rw [List.enumFrom_map_fst, List.length_take]
  · exact List.enumFrom_map_snd 1 (funds.take 10)
  · rw [List.enumFrom_length, List.length_take]
    omega
  · intro h
    unfold moreLine
    rw [if_pos h]
  · intro h
    unfold moreLine
    rw [if_neg (by omega)]
  · intro scrapeRes threshold available lookup msg h
    unfold generate_and_save_fund_summary at h
    split at h
    · exact absurd h (by simp)
    · split at h
      · exact (Option.some.inj h).symm
      · exact absurd h (by simp)

/-- Witness for C9: with 12 threshold-crossing funds the overflow line counts
the 2 funds beyond the first 10. -/
theorem c9_message_caps_ten_witness :
    moreLine (List.replicate 12 (⟨"N", "SH500001", "", "", ""⟩ : FundInfo)).length
      = "... 还有 2 只基金\n\n" := by
  have h := (c9_message_caps_ten "5.0" "2025-01-01 12:00"
    (List.replicate 12 ⟨"N", "SH500001", "", "", ""⟩)).2.2.2.2.1 (by decide)
  rw [h]
  decide

/-- C3: in the pipeline's premium-sorted list every adjacent pair is ordered by
parsed premium descending, and any two entries with equal parsed premiums keep
their original code-sorted relative order — the earlier entry's code is
strictly below the later entry's in code-point order (the sort is stable and
the pre-sort list is in strictly ascending code order). -/
theorem c3_sort_descending_stable (basic : List FundBasic) (val : List FundValuation) :
    (∀ i (h : i + 1 < (sortedFunds basic val).length),
      parse_premium_rate (some (((sortedFunds basic val).get ⟨i + 1, h⟩).premium_rate)) ≤
      parse_premium_rate
        (some (((sortedFunds basic val).get ⟨i, Nat.lt_of_succ_lt h⟩).premium_rate))) ∧
    (∀ i j (hi : i < (sortedFunds basic val).length)
        (hj : j < (sortedFunds basic val).length), i < j →
      parse_premium_rate (some (((sortedFunds basic val).get ⟨i, hi⟩).premium_rate)) =
        parse_premium_rate (some (((sortedFunds basic val).get ⟨j, hj⟩).premium_rate)) →
      leChars ((sortedFunds basic val).get ⟨i, hi⟩).code.data
          ((sortedFunds basic val).get ⟨j, hj⟩).code.data = true ∧
        ((sortedFunds basic val).get ⟨i, hi⟩).code ≠
          ((sortedFunds basic val).get ⟨j, hj⟩).code) := by
  constructor
  · intro i h
    have hpw : (sortedFunds basic val).Pairwise (premiumLe · · = true) :=
      pairwise_stableSort premiumLe premiumLe_trans premiumLe_total _
    have hstep := (List.pairwise_iff_get.mp hpw) ⟨i, Nat.lt_of_succ_lt h⟩ ⟨i + 1, h⟩
      (Fin.mk_lt_mk.mpr (Nat.lt_succ_self i))
    exact of_decide_eq_true hstep
  · intro i j hi hj hij heq
    have hpw : (sortedFunds basic val).Pairwise
        (fun a b => parse_premium_rate (some a.premium_rate)
            = parse_premium_rate (some b.premium_rate) →
          leChars a.code.data b.code.data = true ∧ a.code ≠ b.code) :=
      stableSort_key_tie (fun f : FundInfo => parse_premium_rate (some f.premium_rate))
        (all_funds_info_pairwise basic val)
    exact (List.pairwise_iff_get.mp hpw) ⟨i, hi⟩ ⟨j, hj⟩ (Fin.mk_lt_mk.mpr hij) heq

/-- Witness for C3 at two tied funds: both premiums are blank (parse to 0), so
the sorted list keeps code order SH500001 before SH500002. -/
theorem c3_sort_descending_stable_witness :
    parse_premium_rate (some (((sortedFunds [⟨"SH500001", "1", "2", "3", "4", "A"⟩,
        ⟨"SH500002", "1", "2", "3", "4", "B"⟩] []).get ⟨1, by decide⟩).premium_rate)) ≤
      parse_premium_rate (some (((sortedFunds [⟨"SH500001", "1", "2", "3", "4", "A"⟩,
        ⟨"SH500002", "1", "2", "3", "4", "B"⟩] []).get ⟨0, by decide⟩).premium_rate)) ∧
    leChars ((sortedFunds [⟨"SH500001", "1", "2", "3", "4", "A"⟩,
        ⟨"SH500002", "1", "2", "3", "4", "B"⟩] []).get ⟨0, by decide⟩).code.data
      ((sortedFunds [⟨"SH500001", "1", "2", "3", "4", "A"⟩,
        ⟨"SH500002", "1", "2", "3", "4", "B"⟩] []).get ⟨1, by decide⟩).code.data = true :=
  ⟨(c3_sort_descending_stable [⟨"SH500001", "1", "2", "3", "4", "A"⟩,
      ⟨"SH500002", "1", "2", "3", "4", "B"⟩] []).1 0 (by decide),
   ((c3_sort_descending_stable [⟨"SH500001", "1", "2", "3", "4", "A"⟩,
      ⟨"SH500002", "1", "2", "3", "4", "B"⟩] []).2 0 1 (by decide) (by decide)
      (by decide) (by decide)).1⟩
